import Mathlib

/-!
Verification development for the core of an in-process tracing agent
(GoogleCloudPlatform/cloud-trace-nodejs).  The definitions below are shallow
embeddings of the source files:

* the continuation-local storage built on async_hooks
  (class AsyncHooksCLS): context bindings are mutable Reference cells shared
  between execution units, modelled with an explicit heap of cells;
* the trace policy (Sampler, URLFilter, HTTPMethodFilter, TracePolicy);
* the trace writer (two historical variants of writeSpan / queueTrace_).
-/

namespace CLS

/-- A context value.  The source is generic over the context type; claims only
need an infinite inhabited type with decidable equality, so we use Nat. -/
abbrev Ctx := Nat

/-- State of the AsyncHooksCLS instance together with the relevant part of the
runtime: contexts maps an AsyncResource id to the Reference cell (if any) it is
bound to, heap gives each Reference cell its current value, nextRef is a fresh
cell allocator, and curExec is the id returned by executionAsyncId(). -/
structure State where
  contexts : Nat → Option Nat
  heap : Nat → Ctx
  nextRef : Nat
  curExec : Nat
  defaultContext : Ctx

/-- Pointwise update of the contexts map (JS object property assignment or
deletion, which this code cannot distinguish from assigning undefined). -/
def upd (f : Nat → Option Nat) (i : Nat) (v : Option Nat) : Nat → Option Nat :=
  fun j => if j = i then v else f j

/-- Pointwise update of the heap of Reference cells. -/
def updH (f : Nat → Ctx) (i : Nat) (v : Ctx) : Nat → Ctx :=
  fun j => if j = i then v else f j

/-- The init callback of the AsyncHook: for PROMISE resources the new resource
shares the binding of the currently executing resource, otherwise it shares the
binding of the trigger resource. -/
def hookInit (s : State) (id : Nat) (type : String) (triggerId : Nat) : State :=
  if type = "PROMISE" then
    { s with contexts := upd s.contexts id (s.contexts s.curExec) }
  else
    { s with contexts := upd s.contexts id (s.contexts triggerId) }

/-- The destroy callback of the AsyncHook: delete the binding of the destroyed
resource. -/
def hookDestroy (s : State) (id : Nat) : State :=
  { s with contexts := upd s.contexts id none }

/-- getContext: value of the current resource's cell, else the default. -/
def getContext (s : State) : Ctx :=
  match s.contexts s.curExec with
  | some r => s.heap r
  | none => s.defaultContext

/-- setContext: mutate the current resource's cell in place when it exists,
otherwise bind the current resource to a freshly allocated cell. -/
def setContext (s : State) (v : Ctx) : State :=
  match s.contexts s.curExec with
  | some r => { s with heap := updH s.heap r v }
  | none =>
    { s with
      contexts := upd s.contexts s.curExec (some s.nextRef)
      heap := updH s.heap s.nextRef v
      nextRef := s.nextRef + 1 }

/-- Synchronous client programs: the operations a function passed to
runWithNewContext (or wrapped by bindWithCurrentContext) can perform through
the CLS API within its synchronous extent, plus an abnormal exit. -/
inductive Stmt where
  | set (v : Ctx)
  | get
  | runNew (body : List Stmt)
  | fail
deriving Repr

/-- Result of running a program: final state, the contexts observed by the
get statements, and whether the program finished normally (false models an
exception propagating out). -/
structure ExecRes where
  state : State
  obs : List Ctx
  ok : Bool

/-- The state transformation performed at the entry of runWithNewContext:
bind the current resource to a fresh Reference cell holding the default
context. -/
def enterNew (s : State) : State :=
  { s with
    contexts := upd s.contexts s.curExec (some s.nextRef)
    heap := updH s.heap s.nextRef s.defaultContext
    nextRef := s.nextRef + 1 }

mutual

/-- Run one statement. -/
def execStmt : Stmt → State → ExecRes
  | .set v, s => ⟨setContext s v, [], true⟩
  | .get, s => ⟨s, [getContext s], true⟩
  | .fail, s => ⟨s, [], false⟩
  | .runNew body, s =>
    let r := execList body (enterNew s)
    ⟨{ r.state with contexts := upd r.state.contexts s.curExec (s.contexts s.curExec) },
      r.obs, r.ok⟩

/-- Run a list of statements in order, stopping at the first failure. -/
def execList : List Stmt → State → ExecRes
  | [], s => ⟨s, [], true⟩
  | st :: rest, s =>
    let r := execStmt st s
    if r.ok then
      let r2 := execList rest r.state
      ⟨r2.state, r.obs ++ r2.obs, r2.ok⟩
    else r

end

/-- runWithNewContext: record the current binding, reset the current resource
to a fresh cell holding the default context, run the body, and restore the
recorded binding in a finally block (so also on abnormal exit); the body's
outcome propagates to the caller. -/
def runWithNewContextP (body : List Stmt) (s : State) : ExecRes :=
  let r := execList body (enterNew s)
  ⟨{ r.state with contexts := upd r.state.contexts s.curExec (s.contexts s.curExec) },
    r.obs, r.ok⟩

/-- The current resource's binding, if any, points at or above the low-water
mark n0 of fresh cells.  Programs started inside runWithNewContext satisfy
this with n0 the allocator value at entry, which is why they can never mutate
the cell that held the caller's context. -/
def CurOK (n0 : Nat) (s : State) : Prop :=
  ∀ r, s.contexts s.curExec = some r → n0 ≤ r

/-- All bindings point below the allocator: true of every reachable state. -/
def WF (s : State) : Prop :=
  ∀ i r, s.contexts i = some r → r < s.nextRef

mutual

/-- Execution of one statement preserves the executing resource, the default
context, the allocator's monotonicity, the fresh-binding invariant, every heap
cell below the low-water mark, and every other resource's binding. -/
theorem execStmt_inv (st : Stmt) (s : State) (n0 : Nat) (h1 : n0 ≤ s.nextRef)
    (h2 : CurOK n0 s) :
    (execStmt st s).state.curExec = s.curExec ∧
    (execStmt st s).state.defaultContext = s.defaultContext ∧
    s.nextRef ≤ (execStmt st s).state.nextRef ∧
    CurOK n0 (execStmt st s).state ∧
    (∀ j, j < n0 → (execStmt st s).state.heap j = s.heap j) ∧
    (∀ i, i ≠ s.curExec → (execStmt st s).state.contexts i = s.contexts i) := by
  cases st with
  | set v =>
    simp only [execStmt, setContext]
    cases hc : s.contexts s.curExec with
    | some r =>
      refine ⟨rfl, rfl, le_refl _, ?_, ?_, fun i _ => rfl⟩
      · intro ρ hρ
        exact h2 ρ hρ
      · intro j hj
        have hr : n0 ≤ r := h2 r hc
        simp [updH, Nat.ne_of_lt (lt_of_lt_of_le hj hr)]
    | none =>
      refine ⟨rfl, rfl, Nat.le_succ _, ?_, ?_, ?_⟩
      · intro ρ hρ
        simp [upd] at hρ
        omega
      · intro j hj
        simp [updH, Nat.ne_of_lt (lt_of_lt_of_le hj h1)]
      · intro i hi
        simp [upd, hi]
  | get => exact ⟨rfl, rfl, le_refl _, h2, fun _ _ => rfl, fun _ _ => rfl⟩
  | fail => exact ⟨rfl, rfl, le_refl _, h2, fun _ _ => rfl, fun _ _ => rfl⟩
  | runNew body =>
    have h1' : n0 ≤ (enterNew s).nextRef := Nat.le_succ_of_le h1
    have h2' : CurOK n0 (enterNew s) := by
      intro ρ hρ
      simp [enterNew, upd] at hρ
      omega
    have ih := execList_inv body (enterNew s) n0 h1' h2'
    have hcur : (execList body (enterNew s)).state.curExec = s.curExec := ih.1
    simp only [execStmt]
    refine ⟨hcur, ih.2.1, le_trans (Nat.le_succ _) ih.2.2.1, ?_, ?_, ?_⟩
    · intro ρ hρ
      simp only [hcur, upd, if_pos rfl] at hρ
      exact h2 ρ hρ
    · intro j hj
      have h3 := ih.2.2.2.2.1 j hj
      have h4 : (enterNew s).heap j = s.heap j := by
        simp [enterNew, updH, Nat.ne_of_lt (lt_of_lt_of_le hj h1)]
      exact h3.trans h4
    · intro i hi
      have := ih.2.2.2.2.2 i hi
      simp only [upd, if_neg hi] at this ⊢
      simpa [enterNew, upd, hi] using this

/-- Execution of a statement list preserves the same invariants. -/
theorem execList_inv (l : List Stmt) (s : State) (n0 : Nat) (h1 : n0 ≤ s.nextRef)
    (h2 : CurOK n0 s) :
    (execList l s).state.curExec = s.curExec ∧
    (execList l s).state.defaultContext = s.defaultContext ∧
    s.nextRef ≤ (execList l s).state.nextRef ∧
    CurOK n0 (execList l s).state ∧
    (∀ j, j < n0 → (execList l s).state.heap j = s.heap j) ∧
    (∀ i, i ≠ s.curExec → (execList l s).state.contexts i = s.contexts i) := by
  cases l with
  | nil => exact ⟨rfl, rfl, le_refl _, h2, fun _ _ => rfl, fun _ _ => rfl⟩
  | cons st rest =>
    have ih1 := execStmt_inv st s n0 h1 h2
    simp only [execList]
    split
    · have h1'' : n0 ≤ (execStmt st s).state.nextRef := le_trans h1 ih1.2.2.1
      have ih2 := execList_inv rest (execStmt st s).state n0 h1'' ih1.2.2.2.1
      refine ⟨ih2.1.trans ih1.1, ih2.2.1.trans ih1.2.1,
        le_trans ih1.2.2.1 ih2.2.2.1, ih2.2.2.2.1, ?_, ?_⟩
      · intro j hj
        exact (ih2.2.2.2.2.1 j hj).trans (ih1.2.2.2.2.1 j hj)
      · intro i hi
        have hi' : i ≠ (execStmt st s).state.curExec := by
          rw [ih1.1]; exact hi
        exact (ih2.2.2.2.2.2 i hi').trans (ih1.2.2.2.2.2 i hi)
    · exact ih1

end

/-- A JS callable as seen by bindWithCurrentContext: the WRAPPED marker
symbol, the Reference cell captured at wrap time (for wrappers), and the
underlying body. -/
structure FuncV where
  wrapped : Bool
  bound : Option Nat
  body : List Stmt

/-- bindWithCurrentContext: return the callable unchanged when it already
carries the WRAPPED marker or when the current resource has no binding to
capture; otherwise return a wrapper marked WRAPPED that captured the current
resource's Reference cell. -/
def bindWithCurrentContext (s : State) (f : FuncV) : FuncV :=
  if f.wrapped then f
  else
    match s.contexts s.curExec with
    | none => f
    | some r => ⟨true, some r, f.body⟩

/-- The state transformation at the entry of a wrapper invocation: rebind the
invoking resource to the captured Reference cell. -/
def installBound (r : Nat) (s : State) : State :=
  { s with contexts := upd s.contexts s.curExec (some r) }

/-- Invoking a callable: a wrapper saves the invoking resource's binding,
installs the captured cell, runs the original body and restores the saved
binding in a finally block; a plain callable just runs its body. -/
def invoke (f : FuncV) (s : State) : ExecRes :=
  if f.wrapped then
    match f.bound with
    | some r =>
      let res := execList f.body (installBound r s)
      ⟨{ res.state with
          contexts := upd res.state.contexts s.curExec (s.contexts s.curExec) },
        res.obs, res.ok⟩
    | none => execList f.body s
  else execList f.body s

end CLS

/-- C1: on an init event of kind PROMISE the new unit inherits the binding of
the currently-executing unit; on any other kind it inherits the binding of the
trigger; a destroy event removes the unit's binding; no other unit's binding is
touched by either event. -/
theorem hook_propagation_spec (s : CLS.State) (id triggerId : Nat) (k : String) :
    (k = "PROMISE" →
      (CLS.hookInit s id k triggerId).contexts id = s.contexts s.curExec) ∧
    (k ≠ "PROMISE" →
      (CLS.hookInit s id k triggerId).contexts id = s.contexts triggerId) ∧
    (CLS.hookDestroy s id).contexts id = none ∧
    (∀ j, j ≠ id →
      (CLS.hookInit s id k triggerId).contexts j = s.contexts j ∧
      (CLS.hookDestroy s id).contexts j = s.contexts j) := by
  refine ⟨?_, ?_, ?_, ?_⟩
  · intro hk
    simp [CLS.hookInit, hk, CLS.upd]
  · intro hk
    simp [CLS.hookInit, hk, CLS.upd]
  · simp [CLS.hookDestroy, CLS.upd]
  · intro j hj
    constructor
    · unfold CLS.hookInit
      split <;> simp [CLS.upd, hj]
    · simp [CLS.hookDestroy, CLS.upd, hj]

/-- Witness for hook_propagation_spec at concrete inputs. -/
theorem hook_propagation_spec_witness :
    ((CLS.hookInit ⟨fun i => if i = 1 then some 0 else none, fun _ => 5, 1, 1, 9⟩
        2 "PROMISE" 7).contexts 2 = some 0) ∧
    ((CLS.hookInit ⟨fun i => if i = 1 then some 0 else none, fun _ => 5, 1, 1, 9⟩
        3 "TCPWRAP" 1).contexts 3 = some 0) ∧
    ((CLS.hookDestroy ⟨fun i => if i = 1 then some 0 else none, fun _ => 5, 1, 1, 9⟩
        1).contexts 1 = none) := by
  refine ⟨?_, ?_, ?_⟩
  · exact ((hook_propagation_spec
      ⟨fun i => if i = 1 then some 0 else none, fun _ => 5, 1, 1, 9⟩ 2 7 "PROMISE").1
        rfl).trans (by decide)
  · exact ((hook_propagation_spec
      ⟨fun i => if i = 1 then some 0 else none, fun _ => 5, 1, 1, 9⟩ 3 1 "TCPWRAP").2.1
        (by decide)).trans (by decide)
  · exact (hook_propagation_spec
      ⟨fun i => if i = 1 then some 0 else none, fun _ => 5, 1, 1, 9⟩ 1 7 "X").2.2.1

/-- C2: runWithNewContext runs its body with the current unit's binding reset
to a fresh cell holding the default context; afterwards - whether the body
finished normally or failed - the current unit's binding is exactly the
binding active before the call, getContext returns the same value as before,
and the body's outcome and observations propagate to the caller. -/
theorem runWithNewContext_spec (body : List CLS.Stmt) (s : CLS.State)
    (hwf : CLS.WF s) :
    (CLS.runWithNewContextP body s).state.contexts s.curExec =
        s.contexts s.curExec ∧
    CLS.getContext (CLS.runWithNewContextP body s).state = CLS.getContext s ∧
    CLS.getContext (CLS.enterNew s) = s.defaultContext ∧
    (CLS.runWithNewContextP body s).ok = (CLS.execList body (CLS.enterNew s)).ok ∧
    (CLS.runWithNewContextP body s).obs =
        (CLS.execList body (CLS.enterNew s)).obs := by
  have h1 : s.nextRef ≤ (CLS.enterNew s).nextRef := Nat.le_succ _
  have h2 : CLS.CurOK s.nextRef (CLS.enterNew s) := by
    intro ρ hρ
    simp [CLS.enterNew, CLS.upd] at hρ
    omega
  have inv := CLS.execList_inv body (CLS.enterNew s) s.nextRef h1 h2
  have hcur : (CLS.execList body (CLS.enterNew s)).state.curExec = s.curExec :=
    inv.1
  refine ⟨?_, ?_, ?_, rfl, rfl⟩
  · simp [CLS.runWithNewContextP, CLS.upd]
  · show CLS.getContext
      ⟨CLS.upd (CLS.execList body (CLS.enterNew s)).state.contexts s.curExec
          (s.contexts s.curExec),
        (CLS.execList body (CLS.enterNew s)).state.heap,
        (CLS.execList body (CLS.enterNew s)).state.nextRef,
        (CLS.execList body (CLS.enterNew s)).state.curExec,
        (CLS.execList body (CLS.enterNew s)).state.defaultContext⟩ =
      CLS.getContext s
    unfold CLS.getContext
    simp only [hcur, CLS.upd, if_pos rfl, inv.2.1]
    cases hc : s.contexts s.curExec with
    | none => rfl
    | some ρ =>
      have hρ : ρ < s.nextRef := hwf s.curExec ρ hc
      have h3 := inv.2.2.2.2.1 ρ hρ
      have h4 : (CLS.enterNew s).heap ρ = s.heap ρ := by
        simp [CLS.enterNew, CLS.updH, Nat.ne_of_lt hρ]
      exact h3.trans h4
  · simp [CLS.getContext, CLS.enterNew, CLS.upd, CLS.updH]

/-- Witness for runWithNewContext_spec: a body that sets a context and then
fails abnormally still restores the caller's (empty) binding. -/
theorem runWithNewContext_spec_witness :
    (CLS.runWithNewContextP [CLS.Stmt.set 3, CLS.Stmt.fail]
        ⟨fun _ => none, fun _ => 0, 0, 0, 7⟩).state.contexts 0 = none ∧
    CLS.getContext (CLS.runWithNewContextP [CLS.Stmt.set 3, CLS.Stmt.fail]
        ⟨fun _ => none, fun _ => 0, 0, 0, 7⟩).state = 7 ∧
    (CLS.runWithNewContextP [CLS.Stmt.set 3, CLS.Stmt.fail]
        ⟨fun _ => none, fun _ => 0, 0, 0, 7⟩).ok = false := by
  have h := runWithNewContext_spec [CLS.Stmt.set 3, CLS.Stmt.fail]
    ⟨fun _ => none, fun _ => 0, 0, 0, 7⟩ (fun _ _ hr => Option.noConfusion hr)
  exact ⟨h.1, h.2.1, h.2.2.2.1.trans rfl⟩

/-- C3 counterexample: a callback does not always observe the wrap-time
context.  Wrapping captures the current Reference cell, so a setContext made
through that same cell after wrapping changes what the callback observes: here
the wrap-time context is 10, but the invocation observes 20. -/
theorem bind_wraptime_counterexample :
    CLS.getContext
        (⟨fun i => if i = 1 then some 0 else none, fun _ => 10, 1, 1, 0⟩ :
          CLS.State) = 10 ∧
    (CLS.invoke
        (CLS.bindWithCurrentContext
          (⟨fun i => if i = 1 then some 0 else none, fun _ => 10, 1, 1, 0⟩ :
            CLS.State)
          ⟨false, none, [CLS.Stmt.get]⟩)
        (CLS.setContext
          (⟨fun i => if i = 1 then some 0 else none, fun _ => 10, 1, 1, 0⟩ :
            CLS.State) 20)).obs = [20] := by
  constructor <;> rfl

/-- C3 amended: wrapping an unwrapped callable under a current binding
captures that binding's cell; each later invocation observes the cell's value
at invocation time - equal to the wrap-time context whenever the cell was not
written in between - and afterwards restores the invoking unit's own prior
binding; wrapping an already-wrapped callable returns it unchanged. -/
theorem bind_spec_amended (s : CLS.State) (f : CLS.FuncV) (r : Nat)
    (hf : f.wrapped = false) (hc : s.contexts s.curExec = some r) :
    CLS.bindWithCurrentContext s f = ⟨true, some r, f.body⟩ ∧
    (∀ s' : CLS.State, CLS.getContext (CLS.installBound r s') = s'.heap r) ∧
    (∀ s' : CLS.State, s'.heap r = s.heap r →
      CLS.getContext (CLS.installBound r s') = CLS.getContext s) ∧
    (∀ s' : CLS.State,
      (CLS.invoke (CLS.bindWithCurrentContext s f) s').state.contexts s'.curExec
        = s'.contexts s'.curExec) ∧
    (∀ t : CLS.State,
      CLS.bindWithCurrentContext t (CLS.bindWithCurrentContext s f)
        = CLS.bindWithCurrentContext s f) := by
  have hb : CLS.bindWithCurrentContext s f = ⟨true, some r, f.body⟩ := by
    simp [CLS.bindWithCurrentContext, hf, hc]
  have hobs : ∀ s' : CLS.State,
      CLS.getContext (CLS.installBound r s') = s'.heap r := by
    intro s'
    simp [CLS.getContext, CLS.installBound, CLS.upd]
  refine ⟨hb, hobs, ?_, ?_, ?_⟩
  · intro s' hh
    rw [hobs s', hh]
    simp [CLS.getContext, hc]
  · intro s'
    rw [hb]
    simp [CLS.invoke, CLS.upd]
  · intro t
    rw [hb]
    simp [CLS.bindWithCurrentContext]

/-- Witness for bind_spec_amended at concrete inputs. -/
theorem bind_spec_amended_witness :
    CLS.bindWithCurrentContext
        (⟨fun i => if i = 1 then some 0 else none, fun _ => 10, 1, 1, 0⟩ :
          CLS.State) ⟨false, none, [CLS.Stmt.get]⟩
      = ⟨true, some 0, [CLS.Stmt.get]⟩ ∧
    (CLS.invoke
        (CLS.bindWithCurrentContext
          (⟨fun i => if i = 1 then some 0 else none, fun _ => 10, 1, 1, 0⟩ :
            CLS.State) ⟨false, none, [CLS.Stmt.get]⟩)
        ⟨fun _ => none, fun _ => 3, 0, 4, 9⟩).state.contexts 4 = none ∧
    CLS.bindWithCurrentContext ⟨fun _ => none, fun _ => 3, 0, 4, 9⟩
        (CLS.bindWithCurrentContext
          (⟨fun i => if i = 1 then some 0 else none, fun _ => 10, 1, 1, 0⟩ :
            CLS.State) ⟨false, none, [CLS.Stmt.get]⟩)
      = CLS.bindWithCurrentContext
          (⟨fun i => if i = 1 then some 0 else none, fun _ => 10, 1, 1, 0⟩ :
            CLS.State) ⟨false, none, [CLS.Stmt.get]⟩ := by
  have h := bind_spec_amended
    (⟨fun i => if i = 1 then some 0 else none, fun _ => 10, 1, 1, 0⟩ : CLS.State)
    ⟨false, none, [CLS.Stmt.get]⟩ 0 rfl rfl
  exact ⟨h.1, h.2.2.2.1 ⟨fun _ => none, fun _ => 3, 0, 4, 9⟩,
    h.2.2.2.2 ⟨fun _ => none, fun _ => 3, 0, 4, 9⟩⟩

/-- C10: when the current unit has no binding, bindWithCurrentContext returns
the original callable unchanged (no wrapper, no marker), and invoking an
unwrapped callable just runs its body, installing and restoring nothing. -/
theorem bind_no_context_spec (s : CLS.State) (f : CLS.FuncV)
    (h : s.contexts s.curExec = none) :
    CLS.bindWithCurrentContext s f = f ∧
    (f.wrapped = false →
      ∀ s' : CLS.State, CLS.invoke f s' = CLS.execList f.body s') := by
  constructor
  · by_cases hw : f.wrapped <;> simp [CLS.bindWithCurrentContext, hw, h]
  · intro hw s'
    simp [CLS.invoke, hw]

/-- Witness for bind_no_context_spec at concrete inputs. -/
theorem bind_no_context_spec_witness :
    CLS.bindWithCurrentContext ⟨fun _ => none, fun _ => 3, 0, 4, 9⟩
        ⟨false, none, [CLS.Stmt.set 5]⟩ = ⟨false, none, [CLS.Stmt.set 5]⟩ ∧
    CLS.invoke ⟨false, none, [CLS.Stmt.set 5]⟩ ⟨fun _ => none, fun _ => 3, 0, 4, 9⟩
      = CLS.execList [CLS.Stmt.set 5] ⟨fun _ => none, fun _ => 3, 0, 4, 9⟩ := by
  have h := bind_no_context_spec ⟨fun _ => none, fun _ => 3, 0, 4, 9⟩
    ⟨false, none, [CLS.Stmt.set 5]⟩ rfl
  exact ⟨h.1, h.2 rfl ⟨fun _ => none, fun _ => 3, 0, 4, 9⟩⟩

namespace TP

/-- The rate sampler: traceWindow is the distance in milliseconds between
allowed decisions, nextTraceStart the forward-only watermark.  Timestamps and
rates are rationals (the source computes with JS numbers). -/
structure Sampler where
  traceWindow : ℚ
  nextTraceStart : ℚ
deriving DecidableEq, Repr

/-- Sampler constructor: rates above 1000 are clamped to 1000, the window is
1000 / rate milliseconds, and the watermark starts at the current time. -/
def mkSampler (samplesPerSecond : ℚ) (now : ℚ) : Sampler :=
  let r := if samplesPerSecond > 1000 then 1000 else samplesPerSecond
  ⟨1000 / r, now⟩

/-- Sampler.shouldTrace: refuse when the timestamp is before the watermark,
otherwise accept and move the watermark to the timestamp plus the window. -/
def Sampler.shouldTrace (s : Sampler) (dateMillis : ℚ) : Bool × Sampler :=
  if dateMillis < s.nextTraceStart then (false, s)
  else (true, ⟨s.traceWindow, dateMillis + s.traceWindow⟩)

/-- The sampling sub-policy selected by the TracePolicy constructor:
rate 0 selects the constant-true sampler, negative rates the constant-false
sampler, and positive rates a Sampler. -/
inductive SamplerKind where
  | always
  | never
  | rate (s : Sampler)
deriving DecidableEq, Repr

/-- The sampler selection made in the TracePolicy constructor. -/
def mkPolicySampler (samplingRate : ℚ) (now : ℚ) : SamplerKind :=
  if samplingRate = 0 then .always
  else if samplingRate < 0 then .never
  else .rate (mkSampler samplingRate now)

/-- The decision of the selected sampling sub-policy. -/
def SamplerKind.shouldTrace : SamplerKind → ℚ → Bool × SamplerKind
  | .always, _ => (true, .always)
  | .never, _ => (false, .never)
  | .rate s, t =>
    let r := s.shouldTrace t
    (r.1, .rate r.2)

/-- The decisions of a Sampler over a sequence of timestamps, keeping the
timestamps of the accepted decisions. -/
def sampledTimes : Sampler → List ℚ → List ℚ
  | _, [] => []
  | s, t :: ts =>
    let r := s.shouldTrace t
    if r.1 then t :: sampledTimes r.2 ts else sampledTimes r.2 ts

/-- Node's http.METHODS list, imported by the method filter. -/
def METHODS : List String :=
  ["ACL", "BIND", "CHECKOUT", "CONNECT", "COPY", "DELETE", "GET", "HEAD",
   "LINK", "LOCK", "M-SEARCH", "MERGE", "MKACTIVITY", "MKCALENDAR", "MKCOL",
   "MOVE", "NOTIFY", "OPTIONS", "PATCH", "POST", "PROPFIND", "PROPPATCH",
   "PURGE", "PUT", "REBIND", "REPORT", "SEARCH", "SOURCE", "SUBSCRIBE",
   "TRACE", "UNBIND", "UNLINK", "UNLOCK", "UNSUBSCRIBE"]

/-- HTTPMethodFilter constructor: lowercase the configured methods and keep
only those among the recognized verbs. -/
def mkHTTPMethodFilter (filterMethods : List String) : List String :=
  let lowercaseMethods := METHODS.map String.toLower
  (filterMethods.map String.toLower).filter
    (fun method => lowercaseMethods.contains method)

/-- HTTPMethodFilter.shouldTrace: a falsy method (absent or empty) is always
allowed; otherwise allow unless the lowercased method is in the deny list. -/
def methodShouldTrace (filterMethods : List String) (method : Option String) :
    Bool :=
  match method with
  | none => true
  | some m => if m.isEmpty then true else !(filterMethods.contains m.toLower)

end TP

/-- C4: for positive rates up to 1000 the sampler's window is 1000/R and its
watermark starts at construction time; a decision accepts exactly when the
timestamp has reached the watermark, acceptance moves the watermark to the
timestamp plus the window and refusal leaves the sampler unchanged; rate 0
always samples, negative rates never sample, and rates above 1000 yield the
same policy sampler as rate 1000. -/
theorem sampler_decision_spec :
    (∀ R now : ℚ, 0 < R → R ≤ 1000 →
      TP.mkSampler R now = ⟨1000 / R, now⟩) ∧
    (∀ (s : TP.Sampler) (t : ℚ),
      ((s.shouldTrace t).1 = true ↔ s.nextTraceStart ≤ t) ∧
      (s.nextTraceStart ≤ t →
        (s.shouldTrace t).2 = ⟨s.traceWindow, t + s.traceWindow⟩) ∧
      (t < s.nextTraceStart → (s.shouldTrace t).2 = s)) ∧
    (∀ now t : ℚ, ((TP.mkPolicySampler 0 now).shouldTrace t).1 = true) ∧
    (∀ R now t : ℚ, R < 0 →
      ((TP.mkPolicySampler R now).shouldTrace t).1 = false) ∧
    (∀ R now : ℚ, 1000 < R →
      TP.mkPolicySampler R now = TP.mkPolicySampler 1000 now) := by
  refine ⟨?_, ?_, ?_, ?_, ?_⟩
  · intro R now _ h2
    simp [TP.mkSampler, not_lt.mpr h2]
  · intro s t
    unfold TP.Sampler.shouldTrace
    split
    · next h =>
      refine ⟨by simpa using not_le.mpr h, fun hc => absurd hc (not_le.mpr h), fun _ => rfl⟩
    · next h =>
      refine ⟨by simpa using not_lt.mp h, fun _ => rfl, fun hc => absurd hc h⟩
  · intro now t
    simp [TP.mkPolicySampler, TP.SamplerKind.shouldTrace]
  · intro R now t h
    simp [TP.mkPolicySampler, h.ne, h, TP.SamplerKind.shouldTrace]
  · intro R now h
    have h0 : (0:ℚ) < R := lt_trans (by norm_num) h
    simp [TP.mkPolicySampler, h0.ne', not_lt.mpr h0.le, TP.mkSampler, h]
    norm_num

/-- Witness for sampler_decision_spec at concrete inputs. -/
theorem sampler_decision_spec_witness :
    TP.mkSampler 10 0 = ⟨1000 / 10, 0⟩ ∧
    ((⟨100, 0⟩ : TP.Sampler).shouldTrace 200).1 = true ∧
    ((TP.mkPolicySampler 0 3).shouldTrace 7).1 = true ∧
    ((TP.mkPolicySampler (-5) 3).shouldTrace 7).1 = false ∧
    TP.mkPolicySampler 2000 3 = TP.mkPolicySampler 1000 3 := by
  have h := sampler_decision_spec
  exact ⟨h.1 10 0 (by norm_num) (by norm_num),
    (h.2.1 ⟨100, 0⟩ 200).1.mpr (by norm_num),
    h.2.2.1 3 7,
    h.2.2.2.1 (-5) 3 7 (by norm_num),
    h.2.2.2.2 2000 3 (by norm_num)⟩

/-- C6 counterexample: constructing the policy with the invalid rate 2000 is
not rejected - the constructor is total, throws nothing, emits no log (it has
no logging effect at all), and silently yields exactly the sampler built for
the clamped rate 1000. -/
theorem sampler_silent_clamp_counterexample :
    TP.mkPolicySampler 2000 0 = TP.SamplerKind.rate ⟨1, 0⟩ ∧
    TP.mkPolicySampler 2000 0 = TP.mkPolicySampler 1000 0 := by
  constructor <;> norm_num [TP.mkPolicySampler, TP.mkSampler]

/-- C6 amended: a sampling rate above the ceiling of 1000 is accepted at
construction time and silently clamped - the constructed sampler and the
selected policy sampler equal the ones built for rate 1000, with no error and
no log message. -/
theorem sampler_silent_clamp_amended (R now : ℚ) (h : 1000 < R) :
    TP.mkSampler R now = TP.mkSampler 1000 now ∧
    TP.mkPolicySampler R now = TP.mkPolicySampler 1000 now := by
  have h0 : (0:ℚ) < R := lt_trans (by norm_num) h
  constructor
  · simp [TP.mkSampler, h]
  · simp [TP.mkPolicySampler, h0.ne', not_lt.mpr h0.le, TP.mkSampler, h]
    norm_num

/-- Witness for sampler_silent_clamp_amended at a concrete rate. -/
theorem sampler_silent_clamp_amended_witness :
    TP.mkSampler 1500 4 = TP.mkSampler 1000 4 ∧
    TP.mkPolicySampler 1500 4 = TP.mkPolicySampler 1000 4 :=
  sampler_silent_clamp_amended 1500 4 (by norm_num)

/-- C9: the method filter always admits a request whose method is absent or
the empty string, whatever the configured deny list. -/
theorem method_filter_empty_allows (deny : List String) (m : Option String)
    (h : m = none ∨ m = some "") :
    TP.methodShouldTrace (TP.mkHTTPMethodFilter deny) m = true := by
  rcases h with h | h <;> subst h <;> rfl

/-- Witness for method_filter_empty_allows at a concrete deny list. -/
theorem method_filter_empty_allows_witness :
    TP.methodShouldTrace (TP.mkHTTPMethodFilter ["GET", "POST"]) (some "")
      = true ∧
    TP.methodShouldTrace (TP.mkHTTPMethodFilter ["GET", "POST"]) none = true :=
  ⟨method_filter_empty_allows ["GET", "POST"] (some "") (Or.inr rfl),
   method_filter_empty_allows ["GET", "POST"] none (Or.inl rfl)⟩

/-- Every accepted timestamp lies at or beyond the sampler's watermark. -/
theorem sampledTimes_lower (ts : List ℚ) :
    ∀ (s : TP.Sampler), 0 ≤ s.traceWindow →
      ∀ x ∈ TP.sampledTimes s ts, s.nextTraceStart ≤ x := by
  induction ts with
  | nil => intro s _ x hx; simp [TP.sampledTimes] at hx
  | cons t ts ih =>
    intro s hw x hx
    by_cases h : t < s.nextTraceStart
    · rw [show TP.sampledTimes s (t :: ts) = TP.sampledTimes s ts by
        simp [TP.sampledTimes, TP.Sampler.shouldTrace, h]] at hx
      exact ih s hw x hx
    · rw [show TP.sampledTimes s (t :: ts)
          = t :: TP.sampledTimes ⟨s.traceWindow, t + s.traceWindow⟩ ts by
        simp [TP.sampledTimes, TP.Sampler.shouldTrace, h]] at hx
      rcases List.mem_cons.mp hx with h1 | h1
      · exact h1 ▸ not_lt.mp h
      · have := ih ⟨s.traceWindow, t + s.traceWindow⟩ hw x h1
        have ht : s.nextTraceStart ≤ t := not_lt.mp h
        simp only at this
        linarith

/-- Accepted timestamps are pairwise separated by at least the window. -/
theorem sampledTimes_pairwise (w : ℚ) (hw : 0 ≤ w) (ts : List ℚ) :
    ∀ (s : TP.Sampler), s.traceWindow = w →
      (TP.sampledTimes s ts).Pairwise (fun x y => x + w ≤ y) := by
  induction ts with
  | nil => intro s _; simp [TP.sampledTimes]
  | cons t ts ih =>
    intro s hs
    by_cases h : t < s.nextTraceStart
    · rw [show TP.sampledTimes s (t :: ts) = TP.sampledTimes s ts by
        simp [TP.sampledTimes, TP.Sampler.shouldTrace, h]]
      exact ih s hs
    · rw [show TP.sampledTimes s (t :: ts)
          = t :: TP.sampledTimes ⟨s.traceWindow, t + s.traceWindow⟩ ts by
        simp [TP.sampledTimes, TP.Sampler.shouldTrace, h]]
      refine List.pairwise_cons.mpr ⟨?_, ih ⟨s.traceWindow, t + s.traceWindow⟩ hs⟩
      intro y hy
      have := sampledTimes_lower ts ⟨s.traceWindow, t + s.traceWindow⟩
        (by simpa [hs] using hw) y hy
      simp only at this
      rw [hs] at this
      exact this

/-- A list whose consecutive members are separated by at least w > 0 and whose
members all lie in the interval from a to b holds at most
floor ((b - a) / w) + 1 members. -/
theorem count_sep (w : ℚ) (hw : 0 < w) :
    ∀ (l : List ℚ) (a b : ℚ), a ≤ b →
      l.Pairwise (fun x y => x + w ≤ y) → (∀ x ∈ l, a ≤ x ∧ x ≤ b) →
      (l.length : ℤ) ≤ ⌊(b - a) / w⌋ + 1 := by
  intro l
  induction l with
  | nil =>
    intro a b hab _ _
    have h0 : (0:ℤ) ≤ ⌊(b - a) / w⌋ :=
      Int.floor_nonneg.mpr (div_nonneg (sub_nonneg.mpr hab) hw.le)
    simpa using le_trans h0 (by omega)
  | cons x l ih =>
    intro a b hab hpw hmem
    have hsep := (List.pairwise_cons.mp hpw).1
    have hpl := (List.pairwise_cons.mp hpw).2
    have hx := hmem x (List.mem_cons_self x l)
    cases l with
    | nil =>
      have h0 : (0:ℤ) ≤ ⌊(b - a) / w⌋ :=
        Int.floor_nonneg.mpr (div_nonneg (sub_nonneg.mpr hab) hw.le)
      simpa using by omega
    | cons y l =>
      have hxy : x + w ≤ y := hsep y (List.mem_cons_self y l)
      have hyb : y ≤ b := (hmem y (by simp)).2
      have hab' : x + w ≤ b := le_trans hxy hyb
      have htail : ∀ z ∈ y :: l, x + w ≤ z ∧ z ≤ b := fun z hz =>
        ⟨hsep z hz, (hmem z (List.mem_cons_of_mem x hz)).2⟩
      have hrec := ih (x + w) b hab' hpl htail
      have e1 : (b - (x + w)) / w = (b - x) / w - 1 := by
        rw [show b - (x + w) = (b - x) - w by ring, sub_div, div_self hw.ne']
      have e2 : ⌊(b - x) / w - 1⌋ = ⌊(b - x) / w⌋ - 1 := by
        simp
      rw [e1, e2] at hrec
      have hmono : ⌊(b - x) / w⌋ ≤ ⌊(b - a) / w⌋ := by
        apply Int.floor_mono
        gcongr
        linarith [hx.1]
      simp only [List.length_cons] at hrec ⊢
      push_cast at hrec ⊢
      omega

/-- C5: for any positive rate R and any sequence of decision timestamps, the
number of accepted decisions whose timestamps fall inside any window of T
seconds (1000 T milliseconds) is at most ceil (R T) + 1. -/
theorem sampler_rate_bound (R T a now : ℚ) (ts : List ℚ)
    (hR : 0 < R) (hT : 0 ≤ T) :
    (((TP.sampledTimes (TP.mkSampler R now) ts).filter
        (fun t => decide (a ≤ t ∧ t ≤ a + 1000 * T))).length : ℤ)
      ≤ ⌈R * T⌉ + 1 := by
  set Rc : ℚ := if R > 1000 then 1000 else R with hRc
  have hRc0 : 0 < Rc := by
    rw [hRc]; split <;> [norm_num; exact hR]
  have hRcR : Rc ≤ R := by
    rw [hRc]
    split
    · linarith
    · exact le_rfl
  set w : ℚ := 1000 / Rc with hwdef
  have hw : 0 < w := div_pos (by norm_num) hRc0
  have hwnd : (TP.mkSampler R now).traceWindow = w := rfl
  have hpw := sampledTimes_pairwise w hw.le ts (TP.mkSampler R now) hwnd
  have hpf := hpw.filter (fun t => decide (a ≤ t ∧ t ≤ a + 1000 * T))
  have hmem : ∀ x ∈ (TP.sampledTimes (TP.mkSampler R now) ts).filter
      (fun t => decide (a ≤ t ∧ t ≤ a + 1000 * T)),
      a ≤ x ∧ x ≤ a + 1000 * T := by
    intro x hx
    exact of_decide_eq_true (List.mem_filter.mp hx).2
  have hab : a ≤ a + 1000 * T := by nlinarith
  have hcount := count_sep w hw _ a (a + 1000 * T) hab hpf hmem
  have e1 : (a + 1000 * T - a) / w = Rc * T := by
    rw [hwdef]
    field_simp
    ring
  rw [e1] at hcount
  have h2 : ⌊Rc * T⌋ ≤ ⌊R * T⌋ :=
    Int.floor_mono (mul_le_mul_of_nonneg_right hRcR hT)
  have h3 : ⌊R * T⌋ ≤ ⌈R * T⌉ := Int.floor_le_ceil _
  omega

/-- Witness for sampler_rate_bound at concrete inputs: with rate 1 per second
and a 2-second window, at most 3 of the listed decisions are accepted. -/
theorem sampler_rate_bound_witness :
    (((TP.sampledTimes (TP.mkSampler 1 0) [0, 100, 1100, 1500, 2300]).filter
        (fun t => decide ((0:ℚ) ≤ t ∧ t ≤ 0 + 1000 * 2))).length : ℤ)
      ≤ ⌈(1:ℚ) * 2⌉ + 1 :=
  sampler_rate_bound 1 2 0 0 [0, 100, 1100, 1500, 2300]
    (by norm_num) (by norm_num)

namespace TW

/-- A span as stored in a trace: timestamps are rationals, an absent end
timestamp (the source's empty string) marks the span as still open. -/
structure TraceSpan where
  name : String
  spanId : Nat
  parentSpanId : Nat
  startTime : ℚ
  endTime : Option ℚ
deriving DecidableEq, Repr

/-- Whether a span is closed (its endTime is set). -/
def TraceSpan.isClosed (sp : TraceSpan) : Bool :=
  sp.endTime.isSome

/-- Modelled from the spec: TraceSpan.close (trace-span.js, not among the
source files) sets the span's end timestamp to the current time and is
idempotent - repeated calls keep the original end time; the TraceSpan unit
test pins this behavior (endTime empty until close, then the frozen time). -/
def closeSpan (now : ℚ) (sp : TraceSpan) : TraceSpan :=
  if sp.endTime.isSome then sp else { sp with endTime := some now }

/-- A trace: its lazily-resolved project id and its spans. -/
structure Trace where
  projectId : Option Nat
  spans : List TraceSpan
deriving DecidableEq, Repr

/-- The span data handed to writeSpan; the writer only uses its trace. -/
structure SpanData where
  trace : Trace
deriving DecidableEq, Repr

namespace TW0

/-- The early trace writer (the variant whose queueTrace_ drops silently on
resolution failure and bounds the buffer by bufferSize on the success path). -/
structure Writer where
  buffer : List Trace
  logs : List String
  configProjectId : Option Nat
  bufferSize : Nat
  publishImmediately : Bool
  flushRequested : Bool
deriving DecidableEq, Repr

/-- getProjectNumber: use the cached/configured project id when present, else
consult the environment (the net argument models the metadata lookup's
outcome) and cache a successful answer. -/
def getProjectNumber (w : Writer) (net : Option Nat) : Option (Nat × Writer) :=
  match w.configProjectId with
  | some p => some (p, w)
  | none =>
    match net with
    | some p => some (p, { w with configProjectId := some p })
    | none => none

/-- queueTrace_: on resolution failure return silently; otherwise stamp the
trace with the project id, push it only while the buffer length has not
exceeded bufferSize, and request an immediate flush when the buffer has
reached bufferSize and publishImmediately is configured. -/
def queueTrace (w : Writer) (net : Option Nat) (t : Trace) : Writer :=
  match getProjectNumber w net with
  | none => w
  | some (p, w1) =>
    let t1 := { t with projectId := some p }
    let w2 :=
      if w1.buffer.length ≤ w1.bufferSize then
        { w1 with
          buffer := w1.buffer ++ [t1]
          logs := w1.logs ++ ["queued trace."] }
      else w1
    if w2.bufferSize ≤ w2.buffer.length ∧ w2.publishImmediately = true then
      { w2 with flushRequested := true }
    else w2

/-- writeSpan: close every span of the trace whose endTime is still unset,
then queue the trace. -/
def writeSpan (w : Writer) (net : Option Nat) (now : ℚ) (sd : SpanData) :
    Writer :=
  let t := { sd.trace with
    spans := sd.trace.spans.map
      (fun sp => if sp.endTime = none then closeSpan now sp else sp) }
  queueTrace w net t

end TW0

namespace TW1

/-- The later trace writer (the variant whose queueTrace_ logs the drop on
resolution failure and pushes unconditionally on the success path). -/
structure Writer where
  buffer : List Trace
  logs : List String
  configProjectId : Option Nat
  bufferSize : Nat
  flushRequested : Bool
deriving DecidableEq, Repr

/-- getProjectNumber of the later writer: as in the early one, but a
successful metadata lookup is logged. -/
def getProjectNumber (w : Writer) (net : Option Nat) : Option (Nat × Writer) :=
  match w.configProjectId with
  | some p => some (p, w)
  | none =>
    match net with
    | some p =>
      some (p, { w with
        configProjectId := some p
        logs := w.logs ++ ["Acquired ProjectId from metadata"] })
    | none => none

/-- queueTrace_ of the later writer: on resolution failure log the drop and
return; otherwise stamp the trace, push it unconditionally, and request an
out-of-band flush once the buffer has reached bufferSize. -/
def queueTrace (w : Writer) (net : Option Nat) (t : Trace) : Writer :=
  match getProjectNumber w net with
  | none => { w with logs := w.logs ++ ["No project number, dropping trace."] }
  | some (p, w1) =>
    let t1 := { t with projectId := some p }
    let w2 := { w1 with
      buffer := w1.buffer ++ [t1]
      logs := w1.logs ++ ["queued trace."] }
    if w2.bufferSize ≤ w2.buffer.length then
      { w2 with
        flushRequested := true
        logs := w2.logs ++ ["Flushing: performing periodic flush"] }
    else w2

end TW1

end TW

/-- C7: when project resolution succeeds and the buffer is within capacity,
writeSpan appends to the buffer a trace whose spans are exactly the handed-in
spans with every still-open span force-closed at the handoff time: the span
count is preserved, every span of the enqueued trace carries an end timestamp,
and already-closed spans pass through unchanged. -/
theorem writeSpan_force_closes (w : TW.TW0.Writer) (net : Option Nat) (now : ℚ)
    (sd : TW.SpanData) (p : Nat) (w1 : TW.TW0.Writer)
    (hres : TW.TW0.getProjectNumber w net = some (p, w1))
    (hcap : w1.buffer.length ≤ w1.bufferSize) :
    (TW.TW0.writeSpan w net now sd).buffer =
        w1.buffer ++
          [⟨some p, sd.trace.spans.map
            (fun sp => if sp.endTime = none then TW.closeSpan now sp else sp)⟩] ∧
    w1.buffer = w.buffer ∧
    (sd.trace.spans.map
        (fun sp => if sp.endTime = none then TW.closeSpan now sp else sp)).length
      = sd.trace.spans.length ∧
    (∀ sp ∈ sd.trace.spans.map
        (fun sp => if sp.endTime = none then TW.closeSpan now sp else sp),
      sp.endTime ≠ none) ∧
    (∀ sp ∈ sd.trace.spans, sp.endTime ≠ none →
      (if sp.endTime = none then TW.closeSpan now sp else sp) = sp) := by
  refine ⟨?_, ?_, List.length_map _ _, ?_, ?_⟩
  · unfold TW.TW0.writeSpan TW.TW0.queueTrace
    rw [hres]
    simp only [hcap, if_pos]
    split
    · rfl
    · rfl
  · unfold TW.TW0.getProjectNumber at hres
    cases hc : w.configProjectId with
    | some q =>
      rw [hc] at hres
      cases hres
      rfl
    | none =>
      rw [hc] at hres
      cases net with
      | some q =>
        simp only at hres
        cases hres
        rfl
      | none => exact absurd hres (by simp)
  · intro sp hsp
    rcases List.mem_map.mp hsp with ⟨x, _, hx⟩
    by_cases hxe : x.endTime = none
    · rw [← hx]
      simp [hxe, TW.closeSpan, Option.isSome]
    · rw [← hx]
      simp [hxe]
  · intro sp _ hsp
    simp [hsp]

/-- Witness for writeSpan_force_closes: a trace with one open and one closed
span is enqueued with both spans closed and the closed span untouched. -/
theorem writeSpan_force_closes_witness :
    (TW.TW0.writeSpan ⟨[], [], some 5, 2, false, false⟩ none 40
        ⟨⟨none, [⟨"a", 1, 0, 3, none⟩, ⟨"b", 2, 1, 4, some 6⟩]⟩⟩).buffer =
      [] ++ [⟨some 5, [⟨"a", 1, 0, 3, some 40⟩, ⟨"b", 2, 1, 4, some 6⟩]⟩] ∧
    (∀ sp ∈ [(⟨"a", 1, 0, 3, some 40⟩ : TW.TraceSpan), ⟨"b", 2, 1, 4, some 6⟩],
      sp.endTime ≠ none) := by
  have h := writeSpan_force_closes ⟨[], [], some 5, 2, false, false⟩ none 40
    ⟨⟨none, [⟨"a", 1, 0, 3, none⟩, ⟨"b", 2, 1, 4, some 6⟩]⟩⟩ 5
    ⟨[], [], some 5, 2, false, false⟩ rfl (by decide)
  exact ⟨h.1, by decide⟩

/-- C8 counterexample: with no configured project id and a failing metadata
lookup, a trace handed to the later writer's queueTrace_ is not retained even
though the buffer is empty and far below its capacity of 1000 - it is dropped
immediately with a log line. -/
theorem queueTrace_drop_counterexample :
    (TW.TW1.queueTrace ⟨[], [], none, 1000, false⟩ none ⟨none, []⟩).buffer
        = [] ∧
    ([] : List TW.Trace).length < 1000 ∧
    (TW.TW1.queueTrace ⟨[], [], none, 1000, false⟩ none ⟨none, []⟩).logs
        = ["No project number, dropping trace."] := by
  refine ⟨rfl, by decide, rfl⟩

/-- C8 amended: when identity resolution fails, the later writer discards the
trace immediately - whatever room the buffer has - appending exactly the drop
log line and leaving the buffer (and everything else) unchanged; the operation
is a total function of the writer state, so the caller is never blocked. -/
theorem queueTrace_drop_amended (w : TW.TW1.Writer) (t : TW.Trace)
    (h1 : w.configProjectId = none) :
    TW.TW1.queueTrace w none t
        = { w with logs := w.logs ++ ["No project number, dropping trace."] } ∧
    (TW.TW1.queueTrace w none t).buffer = w.buffer := by
  have he : TW.TW1.getProjectNumber w none = none := by
    unfold TW.TW1.getProjectNumber
    rw [h1]
  constructor
  · unfold TW.TW1.queueTrace
    rw [he]
  · unfold TW.TW1.queueTrace
    rw [he]

/-- Witness for queueTrace_drop_amended at a concrete writer state with a
partially filled buffer. -/
theorem queueTrace_drop_amended_witness :
    TW.TW1.queueTrace ⟨[⟨some 2, []⟩], ["queued trace."], none, 4, false⟩ none
        ⟨none, []⟩
      = ⟨[⟨some 2, []⟩],
          ["queued trace.", "No project number, dropping trace."], none, 4,
          false⟩ ∧
    (TW.TW1.queueTrace ⟨[⟨some 2, []⟩], ["queued trace."], none, 4, false⟩ none
        ⟨none, []⟩).buffer = [⟨some 2, []⟩] := by
  have h := queueTrace_drop_amended
    ⟨[⟨some 2, []⟩], ["queued trace."], none, 4, false⟩ ⟨none, []⟩ rfl
  exact ⟨h.1, h.2⟩
